import Mathlib

/-!
Shallow embedding of `data_cleaning_functions.py` (Pet-Adoption-Analysis-in-
Austin-Texas): the four functions `get_data`, `date_format`,
`merge_intake_n_outcome` and `calculate_time_delta`, together with theorems
checking the specification's claims about them.

Modelling conventions:
* A pandas `DataFrame` holding intake or outcome events is modelled as a list
  of rows plus the list of names of its opaque passthrough attribute columns.
  Every table reaching the correlator is timestamp-typed (`pd.to_datetime` has
  been applied upstream), so the `datetime` cell is a `Nat` instant.
* `pd.NaT` in the added `datetime_outcome` column is `Option.none`.
* The Python dict `outcome_dict` is modelled as a total function
  `String → List Timestamp`; an absent key is the empty list, which is
  behaviourally identical to the code's `key in dict` / `len(...) > 0` test.
* `pd.merge(..., how="left", left_on=[animal_id, datetime_outcome],
  right_on=[animal_id, datetime], suffixes=("_intake", "_outcome"))` is
  modelled row by row: a left row with no right match yields one output row
  with nulls on the right; a left row with matches yields one output row per
  matching right row, in right-table order.  Merge keys that are `NaT` on the
  left never match, since every right `datetime` is a concrete instant.
* Line 98 (`intake_data['datetime_outcome'] = pd.NaT`) mutates the caller's
  intake frame, so the embedded correlator returns the post-call state of the
  intake table as its second component.
-/

namespace PetAdoption

/-- An opaque cell value of a passthrough attribute column. -/
inductive Val where
  | vStr (s : String)
  | vNat (n : Nat)
  | vNull
deriving DecidableEq

/-- A parsed timestamp instant (the tables given to the correlator are already
timestamp-typed). -/
abbrev Timestamp := Nat

/-- One row of the intake table: `animal_id`, `datetime`, the opaque attribute
cells, and the cell of the `datetime_outcome` column added at line 98 (`none`
models `pd.NaT`; the field is meaningful only when the table carries that
column). -/
structure IntakeRow where
  animal_id : String
  datetime : Timestamp
  attrs : List Val
  dto : Option Timestamp := none
deriving DecidableEq

/-- One row of the outcome table: `animal_id`, `datetime`, opaque attributes. -/
structure OutcomeRow where
  animal_id : String
  datetime : Timestamp
  attrs : List Val
deriving DecidableEq

/-- The intake frame: attribute column names, whether the frame currently has a
`datetime_outcome` column (it does after a correlator call), and its rows. -/
structure IntakeTable where
  attrCols : List String
  hasDTO : Bool
  rows : List IntakeRow
deriving DecidableEq

/-- The outcome frame: attribute column names and rows. -/
structure OutcomeTable where
  attrCols : List String
  rows : List OutcomeRow
deriving DecidableEq

/-- The `outcome_dict` of lines 88-95: per-animal queue of outcome datetimes.
An absent key is modelled by the empty list. -/
abbrev OutDict := String → List Timestamp

/-- The empty dict. -/
def emptyDict : OutDict := fun _ => []

/-- `outcome_dict[a].append(t)` (also creating the key, lines 91-95). -/
def dictAppend (d : OutDict) (a : String) (t : Timestamp) : OutDict :=
  fun x => if x = a then d x ++ [t] else d x

/-- Lines 89-95: one linear scan of the outcome rows in table order, appending
each row's datetime to its animal's queue. -/
def buildOutcomeDict (rows : List OutcomeRow) : OutDict :=
  rows.foldl (fun d r => dictAppend d r.animal_id r.datetime) emptyDict

/-- `outcome_dict[a].pop(0)` (line 103). -/
def dictPop (d : OutDict) (a : String) : OutDict :=
  fun x => if x = a then (d x).tail else d x

/-- Lines 98-103: scan the intake rows in table order; when the row's animal
has a nonempty queue, assign the queue front to `datetime_outcome` and pop it,
otherwise the cell keeps the `pd.NaT` set at line 98.  Returns the rewritten
rows and the final dict state. -/
def assignRows (d : OutDict) : List IntakeRow → List IntakeRow × OutDict
  | [] => ([], d)
  | r :: rs =>
    match (d r.animal_id).head? with
    | some t =>
      let p := assignRows (dictPop d r.animal_id) rs
      ({ r with dto := some t } :: p.1, p.2)
    | none =>
      let p := assignRows d rs
      ({ r with dto := none } :: p.1, p.2)

/-- One row of the merged output frame.  Field-to-column correspondence:
`datetime_intake` is the left `datetime` (suffixed), `dto` is the left
`datetime_outcome` column added at line 98 (kept unsuffixed by pandas since the
right frame has no column of that name), `datetime_out` carries the right
`datetime` column, which pandas renames to `datetime_outcome`; the right-hand
cells are `none` in an unmatched row. -/
structure MergedRow where
  animal_id : String
  datetime_intake : Timestamp
  attrs_intake : List Val
  dto : Option Timestamp
  datetime_out : Option Timestamp
  attrs_outcome : Option (List Val)
deriving DecidableEq

/-- The right rows joining with a given left row under
`left_on=[animal_id, datetime_outcome], right_on=[animal_id, datetime]`. -/
def matchesOf (L : IntakeRow) (outRows : List OutcomeRow) : List OutcomeRow :=
  outRows.filter (fun R => R.animal_id = L.animal_id ∧ some R.datetime = L.dto)

/-- Row semantics of the left merge of line 106: every left row survives; a
left row with right matches is replicated once per matching right row. -/
def mergeRows (asg : List IntakeRow) (outRows : List OutcomeRow) : List MergedRow :=
  asg.flatMap (fun L =>
    let ms := matchesOf L outRows
    if ms.isEmpty then
      [⟨L.animal_id, L.datetime, L.attrs, L.dto, none, none⟩]
    else
      ms.map (fun R => ⟨L.animal_id, L.datetime, L.attrs, L.dto, some R.datetime, some R.attrs⟩))

/-- Column names of the merged frame, following pandas naming for this call:
the key pair `animal_id`/`animal_id` (same name on both sides) collapses to a
single column; any other name present in both frames gets `_intake` on the
left copy and `_outcome` on the right copy; all other columns keep their
names.  Left column order is `animal_id`, `datetime`, attributes, then the
`datetime_outcome` column appended at line 98. -/
def sfxIntake (oAttrs : List String) (c : String) : String :=
  if c = "animal_id" then c
  else if c ∈ ["animal_id", "datetime"] ++ oAttrs then c ++ "_intake" else c

def sfxOutcome (iAttrs : List String) (c : String) : String :=
  if c ∈ ["animal_id", "datetime"] ++ iAttrs ++ ["datetime_outcome"] then
    c ++ "_outcome"
  else c

def mergedColumns (iAttrs oAttrs : List String) : List String :=
  (["animal_id", "datetime"] ++ iAttrs ++ ["datetime_outcome"]).map
      (sfxIntake oAttrs)
    ++ ((["animal_id", "datetime"] ++ oAttrs).filter
        (fun c => ¬ c = "animal_id")).map (sfxOutcome iAttrs)

/-- The merged output frame. -/
structure MergedTable where
  cols : List String
  rows : List MergedRow
deriving DecidableEq

/-- Lines 65-113.  First component: the merged DataFrame returned at line 113
(`reset_index(drop=True)` renumbers rows and is the identity on our list
model).  Second component: the state of the caller's intake frame after the
call, mutated in place by lines 98-103. -/
def merge_intake_n_outcome (intake : IntakeTable) (outcome : OutcomeTable) :
    MergedTable × IntakeTable :=
  let d := buildOutcomeDict outcome.rows
  let asg := (assignRows d intake.rows).1
  ({ cols := mergedColumns intake.attrCols outcome.attrCols,
     rows := mergeRows asg outcome.rows },
   { attrCols := intake.attrCols, hasDTO := true, rows := asg })

/-- The outcome datetimes of animal `a` in outcome-table order (the queue the
correlator builds for `a`). -/
def outcomeTimes (rows : List OutcomeRow) (a : String) : List Timestamp :=
  (rows.filter (fun r => r.animal_id = a)).map (fun r => r.datetime)

/-- The intake rows of animal `a` in intake-table order. -/
def intakeOf (rows : List IntakeRow) (a : String) : List IntakeRow :=
  rows.filter (fun r => r.animal_id = a)

/-- FIFO distribution of a queue `q` over `n` consumers: the first
`min n q.length` get successive queue elements, the rest get `none`. -/
def fifoPad (q : List Timestamp) (n : Nat) : List (Option Timestamp) :=
  (q.take n).map some ++ List.replicate (n - q.length) none

/-- The `(animal_id, datetime)` key of an outcome row. -/
def pairOf (r : OutcomeRow) : String × Timestamp := (r.animal_id, r.datetime)

/-- Everything of an intake row except the `datetime_outcome` cell. -/
def baseOf (r : IntakeRow) : String × Timestamp × List Val :=
  (r.animal_id, r.datetime, r.attrs)

/-- The `datetime_outcome` cells assigned to animal `a`'s intake rows, in
intake-table order. -/
def dtosFor (I : IntakeTable) (O : OutcomeTable) (a : String) :
    List (Option Timestamp) :=
  (intakeOf (merge_intake_n_outcome I O).2.rows a).map IntakeRow.dto

/-! Concrete tables used for counterexamples and witnesses. -/

/-- A one-row intake table for animal "a". -/
def exIntakeDup : IntakeTable := ⟨[], false, [⟨"a", 0, [], none⟩]⟩

/-- An outcome table in which animal "a" has two outcome rows with the same
timestamp but distinct attributes (distinct rows, duplicate merge key). -/
def exOutcomeDup : OutcomeTable :=
  ⟨["type"], [⟨"a", 5, [Val.vStr "X"]⟩, ⟨"a", 5, [Val.vStr "Y"]⟩]⟩

/-- A two-row intake table for animal "a". -/
def exIntakeDup2 : IntakeTable :=
  ⟨[], false, [⟨"a", 0, [], none⟩, ⟨"a", 1, [], none⟩]⟩

/-- The intake table of the docstring scenario (lines 79-86): animals a, a, b,
c, d, e. -/
def exIntake : IntakeTable :=
  ⟨[], false,
   [⟨"a", 100, [], none⟩, ⟨"a", 200, [], none⟩, ⟨"b", 10, [], none⟩,
    ⟨"c", 20, [], none⟩, ⟨"d", 30, [], none⟩, ⟨"e", 40, [], none⟩]⟩

/-- The outcome table of the docstring scenario: one outcome each for a, b, c,
d; its `(animal_id, datetime)` keys are pairwise distinct. -/
def exOutcome : OutcomeTable :=
  ⟨[], [⟨"a", 150, []⟩, ⟨"b", 10, []⟩, ⟨"c", 20, []⟩, ⟨"d", 35, []⟩]⟩

/-! Embedding of `date_format` (lines 39-62).  The column is modelled after
line 60 has parsed it: each cell is a structured calendar timestamp.  The
round trip of line 61 — `strftime` to a string in the target format, then
`pd.to_datetime` of that string — is modelled field by field: a calendar field
whose directive occurs in the format survives, every other field takes the
parser's default (1900-01-01 for absent date fields, midnight for absent time
fields). -/

/-- One directive of a strftime format string: a literal separator or one of
the field directives. -/
inductive FmtPart where
  | lit (s : String)
  | pY
  | pm
  | pd
  | pH
  | pM
  | pS
deriving DecidableEq

/-- A parsed calendar timestamp (`datetime64` value). -/
structure DateTime where
  year : Nat
  month : Nat
  day : Nat
  hour : Nat
  minute : Nat
  second : Nat
deriving DecidableEq

/-- `pd.to_datetime(t.strftime(fmt))`: fields rendered by `fmt` round-trip,
the rest are defaulted by the parser. -/
def strftimeRoundTrip (fmt : List FmtPart) (t : DateTime) : DateTime :=
  { year := if FmtPart.pY ∈ fmt then t.year else 1900,
    month := if FmtPart.pm ∈ fmt then t.month else 1,
    day := if FmtPart.pd ∈ fmt then t.day else 1,
    hour := if FmtPart.pH ∈ fmt then t.hour else 0,
    minute := if FmtPart.pM ∈ fmt then t.minute else 0,
    second := if FmtPart.pS ∈ fmt then t.second else 0 }

/-- Lines 60-61 applied to the designated column (the rest of the frame is
untouched and carried implicitly): re-render every cell at the format's
precision. -/
def date_format (col : List DateTime) (fmt : List FmtPart) : List DateTime :=
  col.map (strftimeRoundTrip fmt)

/-- The format string "%Y-%m-%d". -/
def fmtYmd : List FmtPart :=
  [FmtPart.pY, FmtPart.lit "-", FmtPart.pm, FmtPart.lit "-", FmtPart.pd]

/-! Embedding of `calculate_time_delta` (lines 116-160).  Timestamp cells of
the start/end columns are instants in seconds (`Int`); `(df[end] -
df[start]).dt.days` is the floor of the difference in whole days, which for a
pandas `Timedelta` is floor division of the raw difference by 86400 seconds.
`round(x, 1)` is modelled on `ℚ` as rounding `10·x` to the nearest integer
(on this domain `10·d/365.25 = 40·d/1461` is never a half-integer, so no
tie-breaking rule is exercised).  The function returns the derived column —
a name and its cells — not the whole frame. -/

/-- Python `round(x, 1)` on this domain: nearest multiple of 1/10. -/
def round1 (q : ℚ) : ℚ := (round (q * 10) : ℤ) / 10

/-- `(df[end] - df[start]).dt.days` (lines 146-147). -/
def timeDeltaDays (startCol endCol : List Int) : List Int :=
  List.zipWith (fun e s => Int.fdiv (e - s) 86400) endCol startCol

/-- Lines 146-160: returns the derived column as (name, cells).  Cells are
`ℚ` so that the whole-day path and the fractional-years path share a type. -/
def calculate_time_delta (startName : String) (startCol endCol : List Int)
    (unit : String) (col_suffix : String) : String × List ℚ :=
  let time_in_days := timeDeltaDays startCol endCol
  if startName = "date_of_birth" then
    if unit = "years" then
      ("age_upon_" ++ col_suffix ++ "(" ++ unit ++ ")",
       time_in_days.map (fun d => round1 ((d : ℚ) / (365.25 : ℚ))))
    else
      ("age_upon_" ++ col_suffix ++ "(" ++ unit ++ ")",
       time_in_days.map (fun d => (d : ℚ)))
  else
    ("duration(" ++ unit ++ ")", time_in_days.map (fun d => (d : ℚ)))

/-! Embedding of `get_data` (lines 8-36).  The network is modelled by pairing
each URL with the response it returns: a status code and, for successful
responses, the CSV table `pd.read_csv` produces.  The `urls` dict is an
association list (Python dict iteration order).  `data_dict[...]` lookup
failure is the Python `KeyError`, modelled with `Except`. -/

/-- A fetched response: its status code and the parsed CSV rows. -/
structure FetchResult where
  status : Nat
  csv : List (List String)
deriving DecidableEq

/-- Python dict assignment `d[k] = v`: overwrite the key if present, else
append it. -/
def dictInsert (d : List (String × List (List String))) (k : String)
    (v : List (List String)) : List (String × List (List String)) :=
  if d.any (fun p => p.1 = k) then
    d.map (fun p => if p.1 = k then (k, v) else p)
  else
    d ++ [(k, v)]

/-- Python dict lookup `d[k]` as an `Option`. -/
def dictLookup (d : List (String × List (List String))) (k : String) :
    Option (List (List String)) :=
  (d.find? (fun p => p.1 = k)).map (fun p => p.2)

/-- Lines 19-30: one pass over the url dict; a 200 response stores the parsed
CSV under the dataset's name, any other status only prints a diagnostic and
stores nothing. -/
def buildDataDict (urls : List (String × FetchResult)) :
    List (String × List (List String)) :=
  urls.foldl (fun d nf => if nf.2.status = 200 then dictInsert d nf.1 nf.2.csv else d) []

/-- Lines 8-36: fetch every dataset, then access the fixed logical names
"intake" and "outcome"; an absent name raises `KeyError` (line 33 or 34). -/
def get_data (urls : List (String × FetchResult)) :
    Except String (List (List String) × List (List String)) :=
  let data_dict := buildDataDict urls
  match dictLookup data_dict "intake" with
  | none => Except.error "KeyError: intake"
  | some intake_data =>
    match dictLookup data_dict "outcome" with
    | none => Except.error "KeyError: outcome"
    | some outcome_data => Except.ok (intake_data, outcome_data)

/-- Whether some entry of the url dict for dataset `k` was fetched with
status 200 (i.e. `k` ends up in `data_dict`). -/
def fetched (urls : List (String × FetchResult)) (k : String) : Prop :=
  ∃ p ∈ urls, p.1 = k ∧ p.2.status = 200

instance (urls : List (String × FetchResult)) (k : String) :
    Decidable (fetched urls k) := by
  unfold fetched
  infer_instance

/-! Lemmas about the per-entity queue and the FIFO assignment. -/

lemma buildOutcomeDict_go (rows : List OutcomeRow) (d : OutDict) (a : String) :
    (rows.foldl (fun d r => dictAppend d r.animal_id r.datetime) d) a
      = d a ++ outcomeTimes rows a := by
  induction rows generalizing d with
  | nil => simp [outcomeTimes]
  | cons r rs ih =>
    rw [List.foldl_cons, ih]
    by_cases h : r.animal_id = a
    · simp [outcomeTimes, List.filter_cons, h, dictAppend]
    · have h2 : ¬ a = r.animal_id := fun hh => h hh.symm
      simp [outcomeTimes, List.filter_cons, h, h2, dictAppend]

lemma buildOutcomeDict_eq (rows : List OutcomeRow) (a : String) :
    buildOutcomeDict rows a = outcomeTimes rows a := by
  have h := buildOutcomeDict_go rows emptyDict a
  simpa [buildOutcomeDict, emptyDict] using h

lemma assignRows_base (d : OutDict) (rows : List IntakeRow) :
    ((assignRows d rows).1).map baseOf = rows.map baseOf := by
  induction rows generalizing d with
  | nil => simp [assignRows]
  | cons r rs ih =>
    cases hq : (d r.animal_id).head? with
    | some t => simp [assignRows, hq, baseOf, ih]
    | none => simp [assignRows, hq, baseOf, ih]

lemma assignRows_length (d : OutDict) (rows : List IntakeRow) :
    (assignRows d rows).1.length = rows.length := by
  have h := congrArg List.length (assignRows_base d rows)
  simpa using h

lemma fifoPad_nil (n : Nat) : fifoPad [] n = List.replicate n none := by
  simp [fifoPad]

lemma fifoPad_cons (t : Timestamp) (q : List Timestamp) (n : Nat) :
    fifoPad (t :: q) (n + 1) = some t :: fifoPad q n := by
  simp [fifoPad, Nat.succ_sub_succ]

lemma assignRows_filter (rows : List IntakeRow) (d : OutDict) (a : String) :
    ((assignRows d rows).1.filter (fun r => r.animal_id = a)).map IntakeRow.dto
      = fifoPad (d a) ((rows.filter (fun r => r.animal_id = a)).length) := by
  induction rows generalizing d with
  | nil => simp [assignRows, fifoPad]
  | cons r rs ih =>
    by_cases h : r.animal_id = a
    · subst h
      cases hda : d r.animal_id with
      | nil =>
        have hq : (d r.animal_id).head? = none := by rw [hda]; rfl
        have htl : dictPop d r.animal_id r.animal_id = [] := by
          simp [dictPop, hda]
        simp only [assignRows, hq]
        simp [List.filter_cons, ih, hda, fifoPad_nil, List.replicate_succ]
      | cons t q0 =>
        have hq : (d r.animal_id).head? = some t := by rw [hda]; rfl
        have htl : dictPop d r.animal_id r.animal_id = q0 := by
          simp [dictPop, hda]
        simp only [assignRows, hq]
        simp [List.filter_cons, ih, htl, hda, fifoPad_cons]
    · have hne : ¬ ({ r with dto := (none : Option Timestamp) }).animal_id = a := h
      cases hq : (d r.animal_id).head? with
      | some t =>
        have htl : dictPop d r.animal_id a = d a := by
          have h2 : ¬ a = r.animal_id := fun hh => h hh.symm
          simp [dictPop, h2]
        simp only [assignRows, hq]
        simp [List.filter_cons, h, ih, htl]
      | none =>
        simp only [assignRows, hq]
        simp [List.filter_cons, h, ih]

lemma assignRows_congr : ∀ (rows₁ rows₂ : List IntakeRow),
    rows₁.map baseOf = rows₂.map baseOf →
      ∀ d : OutDict, assignRows d rows₁ = assignRows d rows₂
  | [], [], _, _ => rfl
  | [], _ :: _, h, _ => by simp at h
  | _ :: _, [], h, _ => by simp at h
  | r :: rs, r2 :: rs2, h, d => by
    obtain ⟨a1, t1, l1, o1⟩ := r
    obtain ⟨a2, t2, l2, o2⟩ := r2
    simp only [List.map_cons, List.cons.injEq, baseOf, Prod.mk.injEq] at h
    obtain ⟨⟨ha, ht, hl⟩, htl⟩ := h
    subst ha; subst ht; subst hl
    have hrec := assignRows_congr rs rs2 htl
    cases hq : (d a1).head? with
    | some t => simp only [assignRows, hq, hrec]
    | none => simp only [assignRows, hq, hrec]

lemma dto_mem_queue {d : OutDict} {rows : List IntakeRow} {L : IntakeRow}
    {t : Timestamp} (hL : L ∈ (assignRows d rows).1) (ht : L.dto = some t) :
    t ∈ d L.animal_id := by
  have h1 : L ∈ (assignRows d rows).1.filter (fun r => r.animal_id = L.animal_id) :=
    List.mem_filter.mpr ⟨hL, by simp⟩
  have h2 := List.mem_map_of_mem IntakeRow.dto h1
  rw [assignRows_filter, ht] at h2
  simp only [fifoPad] at h2
  rcases List.mem_append.mp h2 with h3 | h3
  · obtain ⟨u, hu, he⟩ := List.mem_map.mp h3
    obtain rfl : u = t := by injection he
    exact (List.take_sublist _ _).subset hu
  · have h4 := List.eq_of_mem_replicate h3
    simp at h4

lemma countP_le_one_of_nodup_map {α β : Type} [DecidableEq β] {l : List α}
    {f : α → β} (h : (l.map f).Nodup) (b : β) :
    l.countP (fun x => f x = b) ≤ 1 := by
  induction l with
  | nil => simp
  | cons x xs ih =>
    simp only [List.map_cons, List.nodup_cons] at h
    rw [List.countP_cons]
    by_cases hx : f x = b
    · have hz : xs.countP (fun x => f x = b) = 0 := by
        rw [List.countP_eq_zero]
        intro y hy hyb
        refine h.1 ?_
        rw [hx, ← of_decide_eq_true hyb]
        exact List.mem_map_of_mem f hy
      simp [hz, hx]
    · simpa [hx] using ih h.2

lemma nodup_outcomeTimes {rows : List OutcomeRow}
    (h : (rows.map pairOf).Nodup) (a : String) :
    (outcomeTimes rows a).Nodup := by
  have hsub : ((rows.filter (fun r => r.animal_id = a)).map pairOf).Nodup :=
    ((List.filter_sublist rows).map pairOf).nodup h
  have heq : (rows.filter (fun r => r.animal_id = a)).map pairOf
      = (outcomeTimes rows a).map (fun t => (a, t)) := by
    rw [outcomeTimes, List.map_map]
    refine List.map_congr_left ?_
    intro r hr
    have := (List.mem_filter.mp hr).2
    simp only [decide_eq_true_eq] at this
    simp [pairOf, Function.comp, this]
  rw [heq] at hsub
  exact hsub.of_map _

lemma countP_eq_le_one_of_nodup {α : Type} [DecidableEq α] {l : List α}
    (h : l.Nodup) (b : α) : l.countP (fun x => x = b) ≤ 1 := by
  have h2 : (l.map id).Nodup := by rw [List.map_id]; exact h
  simpa using countP_le_one_of_nodup_map h2 b

lemma matchesOf_dto_none {L : IntakeRow} (h : L.dto = none)
    (O : List OutcomeRow) : matchesOf L O = [] := by
  rw [matchesOf, List.filter_eq_nil_iff]
  intro R _
  simp [h]

lemma matchesOf_length {O : List OutcomeRow} {L : IntakeRow} {t : Timestamp}
    (ht : L.dto = some t) :
    (matchesOf L O).length = O.countP (fun R => pairOf R = (L.animal_id, t)) := by
  rw [matchesOf, ← List.countP_eq_length_filter]
  refine List.countP_congr ?_
  intro R _
  simp only [decide_eq_true_eq, ht, pairOf, Prod.ext_iff, Option.some.injEq]

lemma matchesOf_length_one {O : List OutcomeRow} (h : (O.map pairOf).Nodup)
    {L : IntakeRow} {t : Timestamp} (ht : L.dto = some t)
    (hmem : t ∈ outcomeTimes O L.animal_id) :
    (matchesOf L O).length = 1 := by
  rw [matchesOf_length ht]
  refine Nat.le_antisymm (countP_le_one_of_nodup_map h _) ?_
  have hpos : 0 < O.countP (fun R => pairOf R = (L.animal_id, t)) := by
    rw [List.countP_pos_iff]
    rw [outcomeTimes] at hmem
    obtain ⟨r, hr, hrt⟩ := List.mem_map.mp hmem
    have hmemO := (List.mem_filter.mp hr).1
    have hra := (List.mem_filter.mp hr).2
    simp only [decide_eq_true_eq] at hra
    exact ⟨r, hmemO, by simp [pairOf, hra, hrt]⟩
  omega

lemma countP_flatMap_le {α β : Type} (p : β → Bool) (q : α → Bool)
    (f : α → List β) (l : List α)
    (h : ∀ x ∈ l, (f x).countP p ≤ if q x then 1 else 0) :
    (l.flatMap f).countP p ≤ l.countP q := by
  induction l with
  | nil => simp
  | cons x xs ih =>
    rw [List.flatMap_cons, List.countP_append, List.countP_cons]
    have h1 := h x (List.mem_cons_self x xs)
    have h2 := ih (fun y hy => h y (List.mem_cons_of_mem x hy))
    rcases Bool.eq_false_or_eq_true (q x) with hqx | hqx <;> rw [hqx] at h1 ⊢
    · rw [if_pos rfl] at h1 ⊢
      omega
    · rw [if_neg (by simp)] at h1 ⊢
      omega

lemma assigned_countP_le_one {O : List OutcomeRow} (h : (O.map pairOf).Nodup)
    {d : OutDict} (hd : ∀ a, d a = outcomeTimes O a)
    (rows : List IntakeRow) (a : String) (t : Timestamp) :
    (assignRows d rows).1.countP
        (fun L => L.animal_id = a ∧ L.dto = some t) ≤ 1 := by
  have hA : (assignRows d rows).1.countP (fun L => L.animal_id = a ∧ L.dto = some t)
      = ((assignRows d rows).1.filter (fun L => L.animal_id = a)).countP
          (fun L => L.dto = some t) := by
    rw [List.countP_filter]
    refine List.countP_congr ?_
    intro L _
    simp only [Bool.and_eq_true, decide_eq_true_eq]
    tauto
  have hB : ((assignRows d rows).1.filter (fun L => L.animal_id = a)).countP
        (fun L => L.dto = some t)
      = (((assignRows d rows).1.filter (fun L => L.animal_id = a)).map
          IntakeRow.dto).countP (fun x => x = some t) := by
    rw [List.countP_map]
    rfl
  rw [hA, hB, assignRows_filter, fifoPad, List.countP_append, List.countP_map,
    List.countP_replicate]
  have hz : (decide ((none : Option Timestamp) = some t)) = false := by simp
  rw [hz, if_neg (by simp), Nat.add_zero]
  have hC : ((d a).take (rows.filter (fun r => r.animal_id = a)).length).countP
        ((fun x => decide (x = some t)) ∘ some)
      ≤ (d a).countP (fun u => u = t) := by
    refine le_trans (le_of_eq (List.countP_congr ?_))
      ((List.take_sublist _ _).countP_le _)
    intro u _
    simp [Function.comp]
  refine le_trans hC ?_
  rw [hd a]
  exact countP_eq_le_one_of_nodup (nodup_outcomeTimes h a) t

lemma mergeRows_length_nodup {O : List OutcomeRow} (h : (O.map pairOf).Nodup)
    {d : OutDict} (hd : ∀ a, d a = outcomeTimes O a) (rows : List IntakeRow) :
    (mergeRows (assignRows d rows).1 O).length = rows.length := by
  rw [mergeRows, List.length_flatMap]
  have hone : ∀ L ∈ (assignRows d rows).1,
      (List.length ∘ (fun L : IntakeRow =>
        let ms := matchesOf L O
        if ms.isEmpty then
          [(⟨L.animal_id, L.datetime, L.attrs, L.dto, none, none⟩ : MergedRow)]
        else
          ms.map (fun R =>
            ⟨L.animal_id, L.datetime, L.attrs, L.dto, some R.datetime,
              some R.attrs⟩))) L = 1 := by
    intro L hL
    cases hdto : L.dto with
    | none => simp [matchesOf_dto_none hdto]
    | some t =>
      have hmem : t ∈ outcomeTimes O L.animal_id := by
        rw [← hd L.animal_id]
        exact dto_mem_queue hL hdto
      have hlen := matchesOf_length_one h hdto hmem
      have hne : (matchesOf L O).isEmpty = false := by
        rw [List.isEmpty_eq_false]
        intro hnil
        rw [hnil] at hlen
        simp at hlen
      simp [Function.comp, hne, hlen]
  rw [List.map_congr_left hone, List.map_const', List.sum_replicate,
    assignRows_length, smul_eq_mul, Nat.mul_one]

lemma merged_key_countP_le {O : List OutcomeRow} (h : (O.map pairOf).Nodup)
    {d : OutDict} (hd : ∀ x, d x = outcomeTimes O x) (rows : List IntakeRow)
    (a : String) (t : Timestamp) :
    (mergeRows (assignRows d rows).1 O).countP
        (fun m => m.animal_id = a ∧ m.datetime_out = some t) ≤ 1 := by
  rw [mergeRows]
  refine le_trans
    (countP_flatMap_le _ (fun L => L.animal_id = a ∧ L.dto = some t) _ _ ?_)
    (assigned_countP_le_one h hd rows a t)
  intro L hL
  by_cases hq : L.animal_id = a ∧ L.dto = some t
  · rw [if_pos (decide_eq_true hq)]
    by_cases hms : (matchesOf L O).isEmpty = true
    · rw [if_pos hms]
      exact le_trans (List.countP_le_length _) (by simp)
    · rw [if_neg hms]
      refine le_trans (List.countP_le_length _) ?_
      rw [List.length_map, matchesOf_length hq.2]
      exact countP_le_one_of_nodup_map h _
  · rw [if_neg (fun hc => hq (of_decide_eq_true hc))]
    dsimp only
    rw [Nat.le_zero, List.countP_eq_zero]
    intro m hm hpm
    have hp := of_decide_eq_true hpm
    by_cases hms : (matchesOf L O).isEmpty = true
    · rw [if_pos hms] at hm
      simp only [List.mem_singleton] at hm
      rw [hm] at hp
      simp at hp
    · rw [if_neg hms] at hm
      obtain ⟨R, hR, hRm⟩ := List.mem_map.mp hm
      have hRf := (List.mem_filter.mp hR).2
      have hRp := of_decide_eq_true hRf
      rw [← hRm] at hp
      refine hq ⟨hp.1, ?_⟩
      rw [← hRp.2]
      exact congrArg some (Option.some.inj hp.2)

lemma merged_no_excess {O : List OutcomeRow} (h : (O.map pairOf).Nodup)
    {d : OutDict} (hd : ∀ x, d x = outcomeTimes O x) (rows : List IntakeRow)
    (a : String) (t : Timestamp) (j : Nat)
    (hj : (rows.filter (fun r => r.animal_id = a)).length ≤ j)
    (ht : (outcomeTimes O a)[j]? = some t) :
    ∀ m ∈ mergeRows (assignRows d rows).1 O,
      ¬ (m.animal_id = a ∧ m.datetime_out = some t) := by
  intro m hm hma
  rw [mergeRows] at hm
  obtain ⟨L, hL, hmL⟩ := List.mem_flatMap.mp hm
  by_cases hms : (matchesOf L O).isEmpty = true
  · rw [if_pos hms] at hmL
    simp only [List.mem_singleton] at hmL
    rw [hmL] at hma
    simp at hma
  · rw [if_neg hms] at hmL
    obtain ⟨R, hR, hRm⟩ := List.mem_map.mp hmL
    have hRp := of_decide_eq_true (List.mem_filter.mp hR).2
    rw [← hRm] at hma
    have hRt : R.datetime = t := Option.some.inj hma.2
    have hLa : L.animal_id = a := hma.1
    have hLd : L.dto = some t := by rw [← hRp.2, hRt]
    -- the assigned timestamps of animal a are drawn from the first
    -- (filter-length) queue entries, but position j ≥ filter-length also
    -- holds t: two occurrences contradict Nodup of the queue.
    have hmemL : L ∈ ((assignRows d rows).1.filter
        (fun r => r.animal_id = a)) := by
      refine List.mem_filter.mpr ⟨hL, ?_⟩
      simp [hLa]
    have hmemd := List.mem_map_of_mem IntakeRow.dto hmemL
    rw [assignRows_filter, hLd, fifoPad] at hmemd
    set q := d a with hqdef
    set n := (rows.filter (fun r => r.animal_id = a)).length with hndef
    have htake : t ∈ q.take n := by
      rcases List.mem_append.mp hmemd with h3 | h3
      · obtain ⟨u, hu, he⟩ := List.mem_map.mp h3
        obtain rfl : u = t := by injection he
        exact hu
      · have h4 := List.eq_of_mem_replicate h3
        simp at h4
    have hdj : (q.drop n)[j - n]? = some t := by
      rw [List.getElem?_drop, show n + (j - n) = j by omega, hqdef, hd]
      exact ht
    have hdrop : t ∈ q.drop n := List.getElem?_mem hdj
    have hcnt : 2 ≤ q.countP (fun x => x = t) := by
      have h1 : 0 < (q.take n).countP (fun x => x = t) :=
        List.countP_pos_iff.mpr ⟨t, htake, by simp⟩
      have h2 : 0 < (q.drop n).countP (fun x => x = t) :=
        List.countP_pos_iff.mpr ⟨t, hdrop, by simp⟩
      have h3 : q.countP (fun x => x = t)
          = (q.take n).countP (fun x => x = t)
            + (q.drop n).countP (fun x => x = t) := by
        rw [← List.countP_append, List.take_append_drop]
      omega
    have hle : q.countP (fun x => x = t) ≤ 1 := by
      rw [hqdef, hd]
      exact countP_eq_le_one_of_nodup (nodup_outcomeTimes h a) t
    omega

/-! The claims. -/

/-- C1, amended: when the outcome table has no duplicate
`(entity_id, timestamp)` pair, the correlator's output has exactly one row
per intake row, whatever the rest of both tables' contents.  (As stated — for
arbitrary outcome contents, duplicate keys included — the claim is refuted by
`C1_counterexample`: the final left join multiplies rows on duplicate keys.) -/
theorem C1_output_rowcount (I : IntakeTable) (O : OutcomeTable)
    (h : (O.rows.map pairOf).Nodup) :
    (merge_intake_n_outcome I O).1.rows.length = I.rows.length :=
  mergeRows_length_nodup h (fun a => buildOutcomeDict_eq O.rows a) I.rows

/-- C1 is false as stated: with two outcome rows for animal "a" bearing the
same timestamp, the single intake row joins to both of them, so the output has
2 rows while the intake table has 1. -/
theorem C1_counterexample :
    ¬ ((merge_intake_n_outcome exIntakeDup exOutcomeDup).1.rows.length
        = exIntakeDup.rows.length) := by decide

/-- C1 witness: the docstring tables have pairwise-distinct outcome keys and
the output row count equals the intake row count (both 6). -/
theorem C1_output_rowcount_witness :
    (exOutcome.rows.map pairOf).Nodup ∧
      (merge_intake_n_outcome exIntake exOutcome).1.rows.length
        = exIntake.rows.length :=
  ⟨by decide, C1_output_rowcount exIntake exOutcome (by decide)⟩

/-- C2: per entity `a` with `i` intake rows and `o` outcome rows in source
order, if `i ≤ o` then the `k`-th intake row of `a` is assigned the non-null
`k`-th outcome timestamp of `a` (FIFO, source order); if `i > o`, the intake
rows of `a` at positions `o..i-1` are assigned null. -/
theorem C2_fifo_pairing (I : IntakeTable) (O : OutcomeTable) (a : String) :
    ((intakeOf I.rows a).length ≤ (outcomeTimes O.rows a).length →
      ∀ k, k < (intakeOf I.rows a).length →
        ∃ t, (outcomeTimes O.rows a)[k]? = some t ∧
          (dtosFor I O a)[k]? = some (some t)) ∧
    ((outcomeTimes O.rows a).length < (intakeOf I.rows a).length →
      ∀ k, (outcomeTimes O.rows a).length ≤ k →
        k < (intakeOf I.rows a).length →
          (dtosFor I O a)[k]? = some none) := by
  have hd : dtosFor I O a
      = fifoPad (outcomeTimes O.rows a) (intakeOf I.rows a).length := by
    have h0 : dtosFor I O a
        = fifoPad (buildOutcomeDict O.rows a)
            ((I.rows.filter (fun r => r.animal_id = a)).length) :=
      assignRows_filter I.rows (buildOutcomeDict O.rows) a
    rw [h0, buildOutcomeDict_eq, intakeOf]
  constructor
  · intro hio k hk
    have hko : k < (outcomeTimes O.rows a).length := lt_of_lt_of_le hk hio
    refine ⟨(outcomeTimes O.rows a)[k], List.getElem?_eq_getElem hko, ?_⟩
    rw [hd, fifoPad, List.getElem?_append]
    have hlen : (((outcomeTimes O.rows a).take
        (intakeOf I.rows a).length).map some).length
        = min (intakeOf I.rows a).length (outcomeTimes O.rows a).length := by
      simp
    rw [hlen, if_pos (by omega), List.getElem?_map, List.getElem?_take,
      if_pos hk, List.getElem?_eq_getElem hko]
    rfl
  · intro hoi k hok hk
    rw [hd, fifoPad, List.getElem?_append]
    have hlen : (((outcomeTimes O.rows a).take
        (intakeOf I.rows a).length).map some).length
        = min (intakeOf I.rows a).length (outcomeTimes O.rows a).length := by
      simp
    rw [hlen, if_neg (by omega), List.getElem?_replicate, if_pos (by omega)]

/-- C2 witness: in the docstring scenario, animal "b" has one intake row and
one outcome row (timestamp 10), and its first intake row is assigned that
timestamp. -/
theorem C2_fifo_pairing_witness :
    ∃ t, (outcomeTimes exOutcome.rows "b")[0]? = some t ∧
      (dtosFor exIntake exOutcome "b")[0]? = some (some t) :=
  (C2_fifo_pairing exIntake exOutcome "b").1 (by decide) 0 (by decide)

/-- C4: the correlator is deterministic and idempotent across two successive
runs on the same inputs, the in-place mutation of the intake argument by the
first run included: line 98 overwrites the whole `datetime_outcome` column
before it is recomputed, so the second run's output is identical. -/
theorem C4_idempotent (I : IntakeTable) (O : OutcomeTable) :
    (merge_intake_n_outcome ((merge_intake_n_outcome I O).2) O).1
      = (merge_intake_n_outcome I O).1 := by
  unfold merge_intake_n_outcome
  dsimp only
  rw [assignRows_congr ((assignRows (buildOutcomeDict O.rows) I.rows).1) I.rows
      (assignRows_base _ _) (buildOutcomeDict O.rows)]

/-- C5 is false as stated: the intake argument is not unchanged after the
call — it acquires the `datetime_outcome` column (and assigned cells) through
the in-place writes of lines 98-103. -/
theorem C5_counterexample :
    ¬ ((merge_intake_n_outcome exIntake exOutcome).2 = exIntake) := by decide

/-- C3, amended: when the outcome table has no duplicate
`(entity_id, timestamp)` key, each outcome row is used at most once — at most
one output row carries its key on the outcome side — and for an entity with
more outcome rows than intake rows the excess outcome rows (queue positions
at or past the entity's intake count) never appear in the output.  (As
stated — for arbitrary inputs, duplicate identical timestamps included — the
claim is refuted by `C3_counterexample`.) -/
theorem C3_outcome_used_once (I : IntakeTable) (O : OutcomeTable)
    (h : (O.rows.map pairOf).Nodup) :
    (∀ R ∈ O.rows,
      (merge_intake_n_outcome I O).1.rows.countP
        (fun m => m.animal_id = R.animal_id ∧ m.datetime_out = some R.datetime)
          ≤ 1) ∧
    (∀ a t j, (intakeOf I.rows a).length ≤ j →
      (outcomeTimes O.rows a)[j]? = some t →
        ∀ m ∈ (merge_intake_n_outcome I O).1.rows,
          ¬ (m.animal_id = a ∧ m.datetime_out = some t)) := by
  constructor
  · intro R _
    exact merged_key_countP_le h (fun x => buildOutcomeDict_eq O.rows x) I.rows
      R.animal_id R.datetime
  · intro a t j hj ht
    exact merged_no_excess h (fun x => buildOutcomeDict_eq O.rows x) I.rows
      a t j hj ht

/-- C3 is false as stated: with two outcome rows for animal "a" carrying the
same timestamp and two intake rows for "a", four output rows carry the key
("a", 5) on the outcome side — each outcome row's attributes are joined to
both intake rows. -/
theorem C3_counterexample :
    ¬ ((merge_intake_n_outcome exIntakeDup2 exOutcomeDup).1.rows.countP
        (fun m => m.animal_id = "a" ∧ m.datetime_out = some 5) ≤ 1) := by
  decide

/-- C3 witness: in the docstring tables, outcome row ("a", 150) appears in at
most one output row. -/
theorem C3_outcome_used_once_witness :
    (merge_intake_n_outcome exIntake exOutcome).1.rows.countP
      (fun m => m.animal_id = ("a" : String) ∧ m.datetime_out = some 150)
        ≤ 1 :=
  (C3_outcome_used_once exIntake exOutcome (by decide)).1 ⟨"a", 150, []⟩
    (by decide)

/-- C5, amended: the call leaves the outcome argument untouched and keeps the
queue local (the embedding is a function of the two tables alone), but the
intake argument is mutated in place: after the call it carries a
`datetime_outcome` column, while its other columns and every other cell are
unchanged. -/
theorem C5_intake_mutation (I : IntakeTable) (O : OutcomeTable) :
    (merge_intake_n_outcome I O).2.attrCols = I.attrCols ∧
    (merge_intake_n_outcome I O).2.hasDTO = true ∧
    (merge_intake_n_outcome I O).2.rows.map baseOf = I.rows.map baseOf :=
  ⟨rfl, rfl, assignRows_base _ _⟩

lemma append_intake_ne (c : String) : ¬ (c ++ "_intake" = "datetime_outcome") := by
  intro hc
  have hdata : c.data ++ "_intake".data = "datetime_outcome".data := by
    rw [← String.data_append, hc]
  have hlen : c.data.length + 7 = 16 := by
    simpa using congrArg List.length hdata
  have hdrop := congrArg (List.drop c.data.length) hdata
  rw [List.drop_left] at hdrop
  rw [show c.data.length = 9 by omega] at hdrop
  exact absurd hdrop (by decide)

lemma append_outcome_eq (c : String)
    (hc : c ++ "_outcome" = "datetime_outcome") : c = "datetime" := by
  have hdata : c.data ++ "_outcome".data = "datetime_outcome".data := by
    rw [← String.data_append, hc]
  have hlen : c.data.length + 8 = 16 := by
    simpa using congrArg List.length hdata
  have htake := congrArg (List.take c.data.length) hdata
  rw [List.take_left] at htake
  rw [show c.data.length = 8 by omega] at htake
  refine String.ext ?_
  rw [htake]
  decide

lemma mergedColumns_count (iA oA : List String)
    (hi2 : "datetime_outcome" ∉ iA)
    (ho1 : "datetime" ∉ oA) (ho2 : "datetime_outcome" ∉ oA) :
    (mergedColumns iA oA).count "datetime_outcome" = 2 := by
  have hiz : ∀ c ∈ iA, ¬ sfxIntake oA c = "datetime_outcome" := by
    intro c hc hfc
    rw [sfxIntake] at hfc
    by_cases h1 : c = "animal_id"
    · rw [if_pos h1] at hfc
      rw [h1] at hfc
      exact absurd hfc (by decide)
    · rw [if_neg h1] at hfc
      by_cases h2 : c ∈ ["animal_id", "datetime"] ++ oA
      · rw [if_pos h2] at hfc
        exact append_intake_ne c hfc
      · rw [if_neg h2] at hfc
        rw [hfc] at hc
        exact hi2 hc
  have hoz : ∀ c ∈ oA.filter (fun c => ¬ c = "animal_id"),
      ¬ sfxOutcome iA c = "datetime_outcome" := by
    intro c hc hfc
    have hcoA : c ∈ oA := (List.mem_filter.mp hc).1
    rw [sfxOutcome] at hfc
    by_cases h2 : c ∈ ["animal_id", "datetime"] ++ iA ++ ["datetime_outcome"]
    · rw [if_pos h2] at hfc
      have hce := append_outcome_eq c hfc
      rw [hce] at hcoA
      exact ho1 hcoA
    · rw [if_neg h2] at hfc
      rw [hfc] at hcoA
      exact ho2 hcoA
  have e1 : ["animal_id", "datetime"].map (sfxIntake oA)
      = ["animal_id", "datetime_intake"] := by
    simp [sfxIntake]
  have e2 : ["datetime_outcome"].map (sfxIntake oA) = ["datetime_outcome"] := by
    simp [sfxIntake, ho2]
  have e3 : ["animal_id", "datetime"].filter (fun c => ¬ c = "animal_id")
      = ["datetime"] := by decide
  have e4 : ["datetime"].map (sfxOutcome iA) = ["datetime_outcome"] := by
    simp [sfxOutcome]
  have hc2 : List.count "datetime_outcome" (iA.map (sfxIntake oA)) = 0 := by
    rw [List.count_eq_zero]
    intro hmem
    obtain ⟨c, hc, hfc⟩ := List.mem_map.mp hmem
    exact hiz c hc hfc
  have hc5 : List.count "datetime_outcome"
      ((oA.filter (fun c => ¬ c = "animal_id")).map (sfxOutcome iA)) = 0 := by
    rw [List.count_eq_zero]
    intro hmem
    obtain ⟨c, hc, hfc⟩ := List.mem_map.mp hmem
    exact hoz c hc hfc
  rw [mergedColumns, List.map_append, List.map_append, List.filter_append,
    List.map_append, e1, e2, e3, e4, List.count_append, List.count_append,
    List.count_append, List.count_append, hc2, hc5]
  decide

lemma mergeRows_value_columns {O : List OutcomeRow}
    {d : OutDict} (hd : ∀ x, d x = outcomeTimes O x) (rows : List IntakeRow) :
    ∀ m ∈ mergeRows (assignRows d rows).1 O,
      m.dto = m.datetime_out ∧ (m.attrs_outcome = none → m.datetime_out = none) := by
  intro m hm
  rw [mergeRows] at hm
  obtain ⟨L, hL, hmL⟩ := List.mem_flatMap.mp hm
  by_cases hms : (matchesOf L O).isEmpty = true
  · rw [if_pos hms] at hmL
    simp only [List.mem_singleton] at hmL
    subst hmL
    refine ⟨?_, fun _ => rfl⟩
    show L.dto = none
    cases hdto : L.dto with
    | none => rfl
    | some t =>
      exfalso
      have hmem : t ∈ outcomeTimes O L.animal_id := by
        rw [← hd]
        exact dto_mem_queue hL hdto
      rw [outcomeTimes] at hmem
      obtain ⟨r, hr, hrt⟩ := List.mem_map.mp hmem
      have hrO := (List.mem_filter.mp hr).1
      have hra := of_decide_eq_true (List.mem_filter.mp hr).2
      have hrm : r ∈ matchesOf L O := by
        rw [matchesOf]
        refine List.mem_filter.mpr ⟨hrO, ?_⟩
        simp [hra, hrt, hdto]
      rw [List.isEmpty_iff.mp hms] at hrm
      simp at hrm
  · rw [if_neg hms] at hmL
    obtain ⟨R, hR, hRm⟩ := List.mem_map.mp hmL
    have hRp := of_decide_eq_true (List.mem_filter.mp hR).2
    subst hRm
    exact ⟨hRp.2.symm, fun hh => absurd hh (by simp)⟩

/-- C10: with both inputs carrying a `datetime` column (always true in this
model) and the opaque attribute columns not clashing with the reserved names,
the merged frame has exactly two columns named `datetime_outcome` — the
matched-timestamp column added at line 98 (kept unsuffixed) and the suffixed
copy of the outcome table's `datetime` — and in every output row the two
hold equal values; in an unmatched row (all-null outcome side) both are
null. -/
theorem C10_duplicate_datetime_outcome (I : IntakeTable) (O : OutcomeTable)
    (hi2 : "datetime_outcome" ∉ I.attrCols)
    (ho1 : "datetime" ∉ O.attrCols) (ho2 : "datetime_outcome" ∉ O.attrCols) :
    (merge_intake_n_outcome I O).1.cols.count "datetime_outcome" = 2 ∧
    ∀ m ∈ (merge_intake_n_outcome I O).1.rows,
      m.dto = m.datetime_out ∧ (m.attrs_outcome = none → m.datetime_out = none) :=
  ⟨mergedColumns_count I.attrCols O.attrCols hi2 ho1 ho2,
   mergeRows_value_columns (fun x => buildOutcomeDict_eq O.rows x) I.rows⟩

/-- C6: `date_format` re-renders the parsed column at the format's precision:
the parse of "2014-04-02 15:55:00" under "%Y-%m-%d" becomes calendar date
2014-04-02 with the time truncated to midnight, and every value with that
calendar date yields the same cell whatever its original time-of-day — the
sub-format precision is irrecoverably lost. -/
theorem C6_date_format_truncates :
    date_format [⟨2014, 4, 2, 15, 55, 0⟩] fmtYmd = [⟨2014, 4, 2, 0, 0, 0⟩] ∧
    ∀ h mi s, date_format [⟨2014, 4, 2, h, mi, s⟩] fmtYmd
      = [⟨2014, 4, 2, 0, 0, 0⟩] := by
  refine ⟨by decide, ?_⟩
  intro h mi s
  simp [date_format, strftimeRoundTrip, fmtYmd]

/-- C7: with the start column literally named "date_of_birth" and unit
"years", the derived column is named `age_upon_<suffix>(years)` and each cell
is the whole-day count of (end − start) divided by 365.25 and rounded to one
decimal; in particular an interval of 389 days yields 1.1. -/
theorem C7_age_years (suffix : String) (sc ec : List Int) :
    (calculate_time_delta "date_of_birth" sc ec "years" suffix
      = ("age_upon_" ++ suffix ++ "(years)",
         (timeDeltaDays sc ec).map (fun d => round1 ((d : ℚ) / (365.25 : ℚ))))) ∧
    calculate_time_delta "date_of_birth" [0] [33609600] "years" "outcome"
      = ("age_upon_outcome(years)", [(1.1 : ℚ)]) := by
  constructor
  · rw [calculate_time_delta]
    rw [if_pos rfl, if_pos rfl]
    refine congrArg (fun n => (n, _)) ?_
    rw [String.append_assoc, String.append_assoc]
    rfl
  · have hd : timeDeltaDays [0] [33609600] = [389] := by decide
    rw [calculate_time_delta]
    rw [if_pos rfl, if_pos rfl, hd]
    refine congrArg₂ Prod.mk rfl ?_
    show [round1 ((389 : ℚ) / (365.25 : ℚ))] = [(1.1 : ℚ)]
    refine congrArg (fun q => [q]) ?_
    rw [round1, round_eq]
    norm_num

/-- C8: with any start column not named "date_of_birth", the derived column
is named `duration(<unit>)` and its cells are whole-day counts of
(end − start) regardless of the requested unit (years is not honored on this
path); only that single derived column is returned. -/
theorem C8_duration_days (startName : String)
    (h : ¬ startName = "date_of_birth") (unit suffix : String)
    (sc ec : List Int) :
    calculate_time_delta startName sc ec unit suffix
      = ("duration(" ++ unit ++ ")",
         (timeDeltaDays sc ec).map (fun d => (d : ℚ))) := by
  rw [calculate_time_delta]
  rw [if_neg h]

/-- C8 witness: a non-birth start column with requested unit "years" still
yields whole days — 389 for a 389-day interval — under the name
`duration(years)`. -/
theorem C8_duration_days_witness :
    calculate_time_delta "datetime_intake" [0] [33609600] "years" ""
      = ("duration(years)", [(389 : ℚ)]) := by
  rw [C8_duration_days "datetime_intake" (by decide) "years" "" [0] [33609600]]
  decide

lemma dictLookup_isSome (d : List (String × List (List String))) (k : String) :
    (dictLookup d k).isSome = d.any (fun p => p.1 = k) := by
  induction d with
  | nil => rfl
  | cons p ps ih =>
    rw [dictLookup, List.any_cons]
    by_cases hp : p.1 = k
    · rw [List.find?_cons_of_pos _ (by simpa using hp)]
      simp [hp]
    · rw [List.find?_cons_of_neg _ (by simpa using hp)]
      rw [← ih, dictLookup]
      simp [hp]

lemma mem_keys_dictInsert (d : List (String × List (List String)))
    (k' : String) (v : List (List String)) (k : String) :
    ((dictInsert d k' v).any (fun p => p.1 = k) = true) ↔
      (d.any (fun p => p.1 = k) = true ∨ k = k') := by
  rw [dictInsert]
  by_cases hin : d.any (fun p => p.1 = k') = true
  · rw [if_pos hin]
    simp only [List.any_eq_true, decide_eq_true_eq] at hin ⊢
    constructor
    · rintro ⟨q, hq, hqk⟩
      obtain ⟨p, hp, hpq⟩ := List.mem_map.mp hq
      by_cases hpk : p.1 = k'
      · rw [if_pos hpk] at hpq
        rw [← hpq] at hqk
        exact Or.inr hqk.symm
      · rw [if_neg hpk] at hpq
        exact Or.inl ⟨p, hp, by rw [hpq]; exact hqk⟩
    · rintro (⟨p, hp, hpk⟩ | hkk)
      · by_cases hpk' : p.1 = k'
        · have hmem := List.mem_map_of_mem
            (fun q : String × List (List String) =>
              if q.1 = k' then (k', v) else q) hp
          dsimp only at hmem
          rw [if_pos hpk'] at hmem
          exact ⟨(k', v), hmem, hpk'.symm.trans hpk⟩
        · have hmem := List.mem_map_of_mem
            (fun q : String × List (List String) =>
              if q.1 = k' then (k', v) else q) hp
          dsimp only at hmem
          rw [if_neg hpk'] at hmem
          exact ⟨p, hmem, hpk⟩
      · obtain ⟨p, hp, hpk'⟩ := hin
        have hmem := List.mem_map_of_mem
          (fun q : String × List (List String) =>
            if q.1 = k' then (k', v) else q) hp
        dsimp only at hmem
        rw [if_pos hpk'] at hmem
        exact ⟨(k', v), hmem, hkk.symm⟩
  · rw [if_neg hin, List.any_append]
    simp only [List.any_cons, List.any_nil, Bool.or_eq_true, Bool.or_false,
      decide_eq_true_eq]
    constructor
    · rintro (h0 | hk)
      · exact Or.inl h0
      · exact Or.inr hk.symm
    · rintro (h0 | hk)
      · exact Or.inl h0
      · exact Or.inr hk.symm

lemma buildDataDict_go_keys (urls : List (String × FetchResult))
    (d : List (String × List (List String))) (k : String) :
    ((urls.foldl (fun d nf =>
        if nf.2.status = 200 then dictInsert d nf.1 nf.2.csv else d) d).any
          (fun p => p.1 = k) = true)
      ↔ (d.any (fun p => p.1 = k) = true ∨ fetched urls k) := by
  induction urls generalizing d with
  | nil => simp [fetched]
  | cons u us ih =>
    rw [List.foldl_cons]
    have hfet : fetched (u :: us) k
        ↔ ((u.1 = k ∧ u.2.status = 200) ∨ fetched us k) := by
      rw [fetched, fetched]
      constructor
      · rintro ⟨p, hp, hpk⟩
        rcases List.mem_cons.mp hp with rfl | hp2
        · exact Or.inl hpk
        · exact Or.inr ⟨p, hp2, hpk⟩
      · rintro (hu | ⟨p, hp, hpk⟩)
        · exact ⟨u, List.mem_cons_self u us, hu⟩
        · exact ⟨p, List.mem_cons_of_mem u hp, hpk⟩
    by_cases hu : u.2.status = 200
    · rw [if_pos hu, ih, mem_keys_dictInsert, hfet]
      constructor
      · rintro ((hd0 | hkk) | hus)
        · exact Or.inl hd0
        · exact Or.inr (Or.inl ⟨hkk.symm, hu⟩)
        · exact Or.inr (Or.inr hus)
      · rintro (hd0 | (⟨hk, _⟩ | hus))
        · exact Or.inl (Or.inl hd0)
        · exact Or.inl (Or.inr hk.symm)
        · exact Or.inr hus
    · rw [if_neg hu, ih, hfet]
      constructor
      · rintro (hd0 | hus)
        · exact Or.inl hd0
        · exact Or.inr (Or.inr hus)
      · rintro (hd0 | (⟨_, hs⟩ | hus))
        · exact Or.inl hd0
        · exact absurd hs hu
        · exact Or.inr hus

lemma buildDataDict_keys (urls : List (String × FetchResult)) (k : String) :
    ((buildDataDict urls).any (fun p => p.1 = k) = true) ↔ fetched urls k := by
  rw [buildDataDict, buildDataDict_go_keys]
  simp

/-- C9: `get_data` never raises on a non-success retrieval status — such a
dataset is merely absent from `data_dict` (first conjunct: a name is present
in the dict exactly when some entry for it was fetched with status 200) — and
it raises a lookup error if and only if, after processing all entries,
"intake" or "outcome" is absent from the collected datasets. -/
theorem C9_get_data_errors (urls : List (String × FetchResult)) :
    (∀ k, ((buildDataDict urls).any (fun p => p.1 = k) = true)
        ↔ fetched urls k) ∧
    ((∃ e, get_data urls = Except.error e)
      ↔ ¬ (fetched urls "intake" ∧ fetched urls "outcome")) := by
  refine ⟨fun k => buildDataDict_keys urls k, ?_⟩
  have hI : (dictLookup (buildDataDict urls) "intake").isSome = true
      ↔ fetched urls "intake" := by
    rw [dictLookup_isSome]
    exact buildDataDict_keys urls "intake"
  have hO : (dictLookup (buildDataDict urls) "outcome").isSome = true
      ↔ fetched urls "outcome" := by
    rw [dictLookup_isSome]
    exact buildDataDict_keys urls "outcome"
  rw [get_data]
  cases hi : dictLookup (buildDataDict urls) "intake" with
  | none =>
    rw [hi] at hI
    simp only [Option.isSome_none, Bool.false_eq_true, false_iff] at hI
    refine iff_of_true ⟨"KeyError: intake", rfl⟩ ?_
    exact fun hc => hI hc.1
  | some iv =>
    rw [hi] at hI
    simp only [Option.isSome_some, true_iff] at hI
    cases ho : dictLookup (buildDataDict urls) "outcome" with
    | none =>
      rw [ho] at hO
      simp only [Option.isSome_none, Bool.false_eq_true, false_iff] at hO
      refine iff_of_true ⟨"KeyError: outcome", rfl⟩ ?_
      exact fun hc => hO hc.2
    | some ov =>
      rw [ho] at hO
      simp only [Option.isSome_some, true_iff] at hO
      refine iff_of_false ?_ ?_
      · rintro ⟨e, he⟩
        exact Except.noConfusion he
      · exact fun hc => hc ⟨hI, hO⟩

/-- C10 witness: on the docstring tables the merged header carries
`datetime_outcome` twice, and the value equalities hold in all 6 rows. -/
theorem C10_duplicate_datetime_outcome_witness :
    (merge_intake_n_outcome exIntake exOutcome).1.cols.count "datetime_outcome"
        = 2 ∧
    ∀ m ∈ (merge_intake_n_outcome exIntake exOutcome).1.rows,
      m.dto = m.datetime_out ∧ (m.attrs_outcome = none → m.datetime_out = none) :=
  C10_duplicate_datetime_outcome exIntake exOutcome (by decide) (by decide)
    (by decide)

end PetAdoption
